import Mathlib

/-!
# Verification of the MediVue task-management API

A shallow embedding of the repository's data model and operations
(`app/models.py`, `app/crud.py`, `app/schemas.py`, `app/routers/tasks.py`,
`app/exceptions.py`) together with proofs about the spec's claims.

Modelling conventions:
* The relational store is a `DB` value: the `tasks` and `tags` tables as
  lists of rows, plus the next auto-increment ids.
* The `task_tags` join table (composite primary key `(task_id, tag_id)`)
  is carried on each task row as its `tagIds` list, exactly the Python
  list assigned to `task.tags`; the set of join rows of a task is the set
  of entries of that list.
* Dates (`due_date`, "today") are `Int` day ordinals; `created_at` is a
  `Nat` tick.  Machine-specific details (timestamps' wall-clock values,
  SQL dialect) are irrelevant to the claims.
* Python `str.strip()` / `str.lower()` / `str.split(",")` become the
  executable char-list functions `pyStrip` / `pyLower` / `splitComma`
  below (structural recursion, so every definition evaluates by kernel
  reduction).
-/

namespace MediVue

/-- A row of the `tags` table (`app/models.py`, class `Tag`):
`id` surrogate key, `name` unique. -/
structure Tag where
  id : Nat
  name : String
  deriving Repr, DecidableEq

/-- A row of the `tasks` table (`app/models.py`, class `Task`).
`tagIds` is the task's side of the `task_tags` join table.
`updated_at` is omitted: no claim under verification depends on it
(C5 explicitly carves it out). -/
structure Task where
  id : Nat
  title : String
  description : Option String
  priority : Int
  dueDate : Option Int
  completed : Bool
  deleted : Bool
  createdAt : Nat
  tagIds : List Nat
  deriving Repr, DecidableEq

/-- The relational store: both tables plus auto-increment counters. -/
structure DB where
  tasks : List Task
  tags : List Tag
  nextTaskId : Nat
  nextTagId : Nat
  deriving Repr, DecidableEq

/-- The empty database. -/
def DB.empty : DB := { tasks := [], tags := [], nextTaskId := 1, nextTagId := 1 }

/-- Python `str.strip()`: drop leading and trailing whitespace. -/
def pyStrip (s : String) : String :=
  ⟨((s.data.dropWhile Char.isWhitespace).reverse.dropWhile Char.isWhitespace).reverse⟩

/-- Python `str.lower()` (ASCII case mapping, as exercised by the code). -/
def pyLower (s : String) : String := ⟨s.data.map Char.toLower⟩

/-- `name.strip().lower()` as in `crud.get_or_create_tags`. -/
def normalizeTag (s : String) : String := pyLower (pyStrip s)

/-- `crud.get_or_create_tags` (crud.py lines 8-20): for each entry,
normalize; skip if blank; look the name up in the `tags` table and create
a row if absent (`db.flush()` makes it visible to later iterations);
append the resolved tag's id to the result list.  Note the Python loop
appends one entry per non-blank input entry, without removing
duplicates. -/
def getOrCreateTags (db : DB) (tagNames : List String) : DB × List Nat :=
  match tagNames with
  | [] => (db, [])
  | name :: rest =>
    let n := normalizeTag name
    if n = "" then
      getOrCreateTags db rest
    else
      match db.tags.find? (fun g => g.name == n) with
      | some g =>
        let r := getOrCreateTags db rest
        (r.1, g.id :: r.2)
      | none =>
        let g : Tag := ⟨db.nextTagId, n⟩
        let db1 : DB := { db with tags := db.tags ++ [g], nextTagId := db.nextTagId + 1 }
        let r := getOrCreateTags db1 rest
        (r.1, g.id :: r.2)

/-- Validated creation payload (`schemas.TaskCreate` after validation):
`priority` defaults to 3, `tags` to the empty list (`none` stands for an
explicit JSON `null`, which Python's `Optional[List[str]]` admits). -/
structure TaskCreate where
  title : String
  description : Option String := none
  priority : Int := 3
  dueDate : Option Int := none
  tags : Option (List String) := some []
  deriving Repr, DecidableEq

/-- `crud.create_task` (crud.py lines 23-35): build the row with the
payload's fields (columns `completed`/`deleted` default to false,
`created_at` to now, `id` to the next counter); `if data.tags:` resolves
tags only for a non-empty list. -/
def createTask (db : DB) (now : Nat) (data : TaskCreate) : DB × Task :=
  let r := match data.tags with
    | some (n :: rest) => getOrCreateTags db (n :: rest)
    | _ => (db, [])
  let task : Task :=
    { id := r.1.nextTaskId, title := data.title, description := data.description,
      priority := data.priority, dueDate := data.dueDate,
      completed := false, deleted := false, createdAt := now, tagIds := r.2 }
  ({ r.1 with tasks := r.1.tasks ++ [task], nextTaskId := r.1.nextTaskId + 1 }, task)

/-- A task row joined to the `tags` table matches the tag-name filter
(`query.join(Task.tags).filter(Tag.name.in_(normalized))`, crud.py lines
58-62): some join row of the task reaches a tag whose name is in the
requested set. -/
def taskMatchesAnyTag (db : DB) (t : Task) (names : List String) : Bool :=
  db.tags.any (fun g => t.tagIds.contains g.id && names.contains g.name)

/-- Insert keeping a descending `createdAt` order (auxiliary for the
embedding of `order_by(Task.created_at.desc())`). -/
def insertDesc (t : Task) : List Task → List Task
  | [] => [t]
  | u :: us => if u.createdAt ≤ t.createdAt then t :: u :: us else u :: insertDesc t us

/-- Sort by `created_at` descending (`order_by(Task.created_at.desc())`,
crud.py line 65). -/
def sortByCreatedDesc : List Task → List Task
  | [] => []
  | t :: ts => insertDesc t (sortByCreatedDesc ts)

/-- The `query` built by `crud.get_tasks` before pagination (crud.py
lines 46-62): the non-deleted rows, then the `completed`, `priority` and
tag filters when present (`if tags:` skips `None` and `[]`, and the tag
filter is applied only when some entry survives normalization).  The SQL
`DISTINCT` after the join keeps each task row once; here the filter over
task rows yields each row once directly. -/
def getTasksQuery (db : DB) (completed : Option Bool) (priority : Option Int)
    (tags : Option (List String)) : List Task :=
  let query := db.tasks.filter (fun t => t.deleted == false)
  let query := match completed with
    | none => query
    | some c => query.filter (fun t => t.completed == c)
  let query := match priority with
    | none => query
    | some p => query.filter (fun t => t.priority == p)
  match tags with
  | none => query
  | some ts =>
    let normalized := (ts.filter (fun s => !(pyStrip s == ""))).map (fun s => pyLower (pyStrip s))
    if !normalized.isEmpty then
      query.filter (fun t => taskMatchesAnyTag db t normalized)
    else query

/-- `crud.get_tasks` (crud.py lines 38-66): `total` is the count of the
filtered query, computed before ordering by creation time (most recent
first) and applying `offset`/`limit`. -/
def getTasks (db : DB) (completed : Option Bool) (priority : Option Int)
    (tags : Option (List String)) (limit : Nat) (offset : Nat) :
    Nat × List Task :=
  let query := getTasksQuery db completed priority tags
  let total := query.length
  let tasks := ((sortByCreatedDesc query).drop offset).take limit
  (total, tasks)

/-- `crud.get_task` (crud.py lines 69-70): first row with the given id
that is not soft-deleted. -/
def getTask (db : DB) (taskId : Nat) : Option Task :=
  db.tasks.find? (fun t => t.id == taskId && t.deleted == false)

/-- Validated partial-update payload (`schemas.TaskUpdate` after
validation and `model_dump(exclude_unset=True)`): an outer `none` means
the field was absent from the request body.  For the nullable columns
(`description`, `due_date`) and for `tags` (whose `None` is handled by
`update_data.pop("tags") or []`) an inner `none` is an explicit JSON
`null`.  An explicit `null` for `title`/`priority`/`completed` is not
modelled: the store rejects it (non-nullable columns), and every claim
concerns absent-versus-present fields. -/
structure TaskUpdate where
  title : Option String := none
  description : Option (Option String) := none
  priority : Option Int := none
  dueDate : Option (Option Int) := none
  completed : Option Bool := none
  tags : Option (Option (List String)) := none
  deriving Repr, DecidableEq

/-- `crud.update_task` (crud.py lines 73-85): if `tags` is present it is
popped and the association list replaced by the resolution of the given
list (`or []` turns an explicit `null` into the empty list); every other
present field overwrites the stored value; absent fields are not
touched. -/
def updateTask (db : DB) (task : Task) (data : TaskUpdate) : DB × Task :=
  let r := match data.tags with
    | none => (db, task.tagIds)
    | some v => getOrCreateTags db (v.getD [])
  let t' : Task :=
    { task with
      title := data.title.getD task.title,
      description := data.description.getD task.description,
      priority := data.priority.getD task.priority,
      dueDate := data.dueDate.getD task.dueDate,
      completed := data.completed.getD task.completed,
      tagIds := r.2 }
  ({ r.1 with tasks := r.1.tasks.map (fun x => if x.id == task.id then t' else x) }, t')

/-- `crud.delete_task` (crud.py lines 88-91): soft delete — only the
`deleted` flag of the row is set. -/
def deleteTask (db : DB) (task : Task) : DB :=
  { db with tasks := db.tasks.map (fun x => if x.id == task.id then { x with deleted := true } else x) }

/-! ## Transport layer (`app/routers/tasks.py`, `app/exceptions.py`) -/

/-- The error JSON shape produced by `exceptions.py`:
`{"error": ..., "details": {field-or-resource: message}}`. -/
structure ErrorBody where
  error : String
  details : List (String × String)
  deriving Repr, DecidableEq

/-- An HTTP response: a status code with either a success body or an
error body. -/
inductive Response (α : Type) where
  | success (status : Nat) (body : α)
  | failure (status : Nat) (body : ErrorBody)
  deriving Repr, DecidableEq

/-- `exceptions.not_found_response`: 404 with
`{"error": "Not Found", "details": {resource.lower(): "<resource> not found"}}`. -/
def notFoundResponse (α : Type) (resource : String) : Response α :=
  .failure 404 { error := "Not Found", details := [(pyLower resource, resource ++ " not found")] }

/-- `GET /tasks/{id}` (routers/tasks.py lines 75-86): look the task up,
404 when absent. -/
def getTaskRoute (db : DB) (taskId : Nat) : Response Task :=
  match getTask db taskId with
  | none => notFoundResponse Task "Task"
  | some t => .success 200 t

/-- `PATCH /tasks/{id}` (routers/tasks.py lines 89-104): look the task
up, 404 when absent, otherwise apply the update.  (The payload here is
already validated; see `validateTaskUpdate`.) -/
def updateTaskRoute (db : DB) (taskId : Nat) (data : TaskUpdate) : DB × Response Task :=
  match getTask db taskId with
  | none => (db, notFoundResponse Task "Task")
  | some t =>
    let r := updateTask db t data
    (r.1, .success 200 r.2)

/-- `DELETE /tasks/{id}` (routers/tasks.py lines 107-121): look the task
up, 404 when absent, otherwise soft delete and answer 204. -/
def deleteTaskRoute (db : DB) (taskId : Nat) : DB × Response Unit :=
  match getTask db taskId with
  | none => (db, notFoundResponse Unit "Task")
  | some t => (deleteTask db t, .success 204 ())

/-- Python `str.split(",")`. -/
def splitCommaAux : List Char → List Char → List String
  | [], acc => [⟨acc.reverse⟩]
  | c :: cs, acc =>
    if c = ',' then ⟨acc.reverse⟩ :: splitCommaAux cs []
    else splitCommaAux cs (c :: acc)

/-- Python `tags.split(",")` on a string. -/
def splitComma (s : String) : List String := splitCommaAux s.data []

/-- routers/tasks.py line 63:
`[t.strip() for t in tags.split(",") if t.strip()] if tags else None`. -/
def parseTagsParam (tags : Option String) : Option (List String) :=
  match tags with
  | none => none
  | some s =>
    if s = "" then none
    else some (((splitComma s).filter (fun t => !(pyStrip t == ""))).map pyStrip)

/-- The body of a `GET /tasks` 200 response
(`schemas.PaginatedTaskResponse`). -/
structure PaginatedTasks where
  total : Nat
  limit : Nat
  offset : Nat
  tasks : List Task
  deriving Repr, DecidableEq

/-- `GET /tasks` (routers/tasks.py lines 43-72): parse the CSV tag
parameter, delegate to `crud.get_tasks`, wrap in the paginated shape. -/
def listTasksRoute (db : DB) (completed : Option Bool) (priority : Option Int)
    (tags : Option String) (limit : Nat) (offset : Nat) : Response PaginatedTasks :=
  let r := getTasks db completed priority (parseTagsParam tags) limit offset
  .success 200 { total := r.1, limit := limit, offset := offset, tasks := r.2 }

/-! ## Validation layer (`app/schemas.py`, `app/exceptions.py`)

Pydantic validates each field (declared constraints first, then the
`field_validator`), collecting one message per offending field;
`exceptions.validation_exception_handler` turns the collected errors
into a 422 response whose `details` maps each field to its message. -/

/-- A raw `POST /tasks` body (well-typed JSON; `none` = field absent). -/
structure RawTaskCreate where
  title : Option String := none
  description : Option String := none
  priority : Option Int := none
  dueDate : Option Int := none
  tags : Option (List String) := none
  deriving Repr, DecidableEq

/-- Errors for a present `title` value: `Field(min_length=1,
max_length=200)` then the `title_not_blank` validator
(schemas.py lines 27-32). -/
def titleValueErrors (s : String) : List (String × String) :=
  if s.length < 1 then [("title", "String should have at least 1 character")]
  else if s.length > 200 then [("title", "String should have at most 200 characters")]
  else if pyStrip s = "" then [("title", "Value error, title must not be empty or whitespace")]
  else []

/-- Errors for the `priority` field: `Field(ge=1, le=5)`. -/
def priorityErrors (p : Option Int) : List (String × String) :=
  match p with
  | none => []
  | some v =>
    if v < 1 then [("priority", "Input should be greater than or equal to 1")]
    else if 5 < v then [("priority", "Input should be less than or equal to 5")]
    else []

/-- Errors for the `due_date` field: the `due_date_not_in_past`
validator (schemas.py lines 21-25) rejects dates strictly before
today. -/
def dueDateErrors (today : Int) (d : Option Int) : List (String × String) :=
  match d with
  | none => []
  | some v =>
    if v < today then [("due_date", "Value error, due_date must not be in the past")] else []

/-- `schemas.TaskCreate` validation: `title` required (min 1, max 200,
not whitespace-only — the validator returns `v.strip()`), `priority`
defaults to 3 within [1,5], `due_date` not in the past, `tags` defaults
to the empty list. -/
def validateTaskCreate (today : Int) (raw : RawTaskCreate) :
    Except (List (String × String)) TaskCreate :=
  match raw.title with
  | none =>
    .error (("title", "Field required")
      :: (priorityErrors raw.priority ++ dueDateErrors today raw.dueDate))
  | some s =>
    if (titleValueErrors s ++ priorityErrors raw.priority
        ++ dueDateErrors today raw.dueDate).isEmpty then
      .ok { title := pyStrip s, description := raw.description,
            priority := raw.priority.getD 3, dueDate := raw.dueDate,
            tags := some (raw.tags.getD []) }
    else
      .error (titleValueErrors s ++ priorityErrors raw.priority
        ++ dueDateErrors today raw.dueDate)

/-- `POST /tasks` (routers/tasks.py lines 12-40 plus the exception
handler of exceptions.py lines 6-14): validation failure yields 422 with
`{"error": "Validation Failed", "details": ...}` and no write; success
persists the task and answers 201. -/
def createTaskRoute (db : DB) (today : Int) (now : Nat) (raw : RawTaskCreate) :
    DB × Response Task :=
  match validateTaskCreate today raw with
  | .error e => (db, .failure 422 { error := "Validation Failed", details := e })
  | .ok data =>
    let r := createTask db now data
    (r.1, .success 201 r.2)

/-- A raw `PATCH /tasks/{id}` body (`none` = field absent; the inner
option of `description`/`dueDate`/`tags` is an explicit JSON `null`). -/
structure RawTaskUpdate where
  title : Option String := none
  description : Option (Option String) := none
  priority : Option Int := none
  dueDate : Option (Option Int) := none
  completed : Option Bool := none
  tags : Option (Option (List String)) := none
  deriving Repr, DecidableEq

/-- `schemas.TaskUpdate` validation: constraints apply only to fields
present in the payload; the `title_not_blank` validator returns
`v.strip()` for a present non-null title (schemas.py lines 50-55). -/
def validateTaskUpdate (today : Int) (raw : RawTaskUpdate) :
    Except (List (String × String)) TaskUpdate :=
  if ((match raw.title with
       | none => []
       | some s => titleValueErrors s)
      ++ priorityErrors raw.priority
      ++ (match raw.dueDate with
          | some (some d) => dueDateErrors today (some d)
          | _ => [])).isEmpty then
    .ok { title := raw.title.map pyStrip, description := raw.description,
          priority := raw.priority, dueDate := raw.dueDate,
          completed := raw.completed, tags := raw.tags }
  else
    .error ((match raw.title with
       | none => []
       | some s => titleValueErrors s)
      ++ priorityErrors raw.priority
      ++ (match raw.dueDate with
          | some (some d) => dueDateErrors today (some d)
          | _ => []))

/-! ## Declarative views used by the theorems -/

/-- The declarative form of the `crud.get_tasks` filter: not
soft-deleted, matching each active exact filter, and (when the tag
filter is active) carrying at least one requested tag. -/
def matchesQuery (db : DB) (completed : Option Bool) (priority : Option Int)
    (tags : Option (List String)) (t : Task) : Bool :=
  t.deleted == false
  && (match completed with | none => true | some c => t.completed == c)
  && (match priority with | none => true | some p => t.priority == p)
  && (match tags with
      | none => true
      | some ts =>
        let normalized := (ts.filter (fun s => !(pyStrip s == ""))).map (fun s => pyLower (pyStrip s))
        if !normalized.isEmpty then taskMatchesAnyTag db t normalized else true)

/-- The normalized names `crud.get_or_create_tags` resolves: each entry
trimmed and lowercased, blank results dropped, order and multiplicity of
the input kept. -/
def normNames : List String → List String
  | [] => []
  | x :: xs => if normalizeTag x = "" then normNames xs else normalizeTag x :: normNames xs

/-- Well-formed store: surrogate keys are unique and below the
auto-increment counters, and tag names are unique (the `unique=True`
constraint on `tags.name` in models.py). -/
def WF (db : DB) : Prop :=
  (db.tasks.map Task.id).Nodup
  ∧ (db.tags.map Tag.id).Nodup
  ∧ (db.tags.map Tag.name).Nodup
  ∧ (∀ t ∈ db.tasks, t.id < db.nextTaskId)
  ∧ (∀ g ∈ db.tags, g.id < db.nextTagId)

instance (db : DB) : Decidable (WF db) := by unfold WF; infer_instance

/-- The declared `title` constraint is violated: absent, empty, longer
than 200 characters, or whitespace-only. -/
def titleMissingOrInvalid : Option String → Prop
  | none => True
  | some s => s.length < 1 ∨ 200 < s.length ∨ pyStrip s = ""

/-- The declared `priority` constraint is violated: present and outside
[1, 5]. -/
def priorityOutOfRange : Option Int → Prop
  | none => False
  | some v => v < 1 ∨ 5 < v

/-- The declared `due_date` constraint is violated: present and strictly
before today. -/
def dueDatePast (today : Int) : Option Int → Prop
  | none => False
  | some d => d < today

/-! ## Helper lemmas -/

theorem insertDesc_perm (t : Task) (l : List Task) : (insertDesc t l).Perm (t :: l) := by
  induction l with
  | nil => simp [insertDesc]
  | cons u us ih =>
    by_cases h : u.createdAt ≤ t.createdAt
    · simp [insertDesc, h]
    · simp only [insertDesc, if_neg h]
      exact (ih.cons u).trans (List.Perm.swap t u us)

theorem sortByCreatedDesc_perm (l : List Task) : (sortByCreatedDesc l).Perm l := by
  induction l with
  | nil => simp [sortByCreatedDesc]
  | cons t ts ih => exact (insertDesc_perm t (sortByCreatedDesc ts)).trans (ih.cons t)

theorem getTasksQuery_eq (db : DB) (c : Option Bool) (p : Option Int)
    (tg : Option (List String)) :
    getTasksQuery db c p tg = db.tasks.filter (matchesQuery db c p tg) := by
  cases c <;> cases p <;> cases tg <;>
    simp only [getTasksQuery, List.filter_filter] <;>
    try split
  all_goals
    refine List.filter_congr fun x _ => ?_
  all_goals
    simp_all [matchesQuery, Bool.and_comm, Bool.and_left_comm, Bool.and_assoc]

theorem find?_eq_some_of_mem_unique {α : Type} {p : α → Bool} {l : List α} {a : α}
    (ha : a ∈ l) (hp : p a = true) (huniq : ∀ x ∈ l, p x = true → x = a) :
    l.find? p = some a := by
  induction l with
  | nil => cases ha
  | cons b bs ih =>
    rcases List.mem_cons.1 ha with rfl | hmem
    · simp [List.find?_cons_of_pos, hp]
    · by_cases hb : p b = true
      · have hba : b = a := huniq b (List.mem_cons_self b bs) hb
        subst hba
        simp [List.find?_cons_of_pos, hb]
      · rw [List.find?_cons_of_neg _ (by simpa using hb)]
        exact ih hmem (fun x hx hpx => huniq x (List.mem_cons_of_mem b hx) hpx)

theorem filter_name_eq_singleton {l : List Tag} {g : Tag}
    (hn : (l.map Tag.name).Nodup) (hg : g ∈ l) :
    l.filter (fun x => x.name == g.name) = [g] := by
  induction l with
  | nil => cases hg
  | cons b bs ih =>
    rw [List.map_cons, List.nodup_cons] at hn
    rw [List.filter_cons]
    rcases List.mem_cons.1 hg with rfl | hmem
    · have hnil : bs.filter (fun x => x.name == g.name) = [] := by
        refine List.filter_eq_nil_iff.2 (fun x hx => ?_)
        simp only [beq_iff_eq]
        intro hxg
        exact hn.1 (hxg ▸ List.mem_map_of_mem Tag.name hx)
      simp [hnil]
    · have hbg : (b.name == g.name) = false := by
        refine beq_eq_false_iff_ne.2 (fun hbg => ?_)
        exact hn.1 (hbg ▸ List.mem_map_of_mem Tag.name hmem)
      simp only [hbg, if_neg]
      · exact ih hn.2 hmem

theorem WF_addTag {db : DB} (h : WF db) {n : String}
    (hfresh : ∀ x ∈ db.tags, x.name ≠ n) :
    WF { db with tags := db.tags ++ [⟨db.nextTagId, n⟩], nextTagId := db.nextTagId + 1 } := by
  obtain ⟨h1, h2, h3, h4, h5⟩ := h
  refine ⟨h1, ?_, ?_, h4, ?_⟩
  · simp only [List.map_append, List.map_cons, List.map_nil]
    rw [List.nodup_append]
    refine ⟨h2, List.nodup_singleton _, ?_⟩
    intro a ha hb
    obtain rfl : a = db.nextTagId := by simpa using hb
    obtain ⟨g, hg, hgid⟩ := List.mem_map.1 ha
    exact absurd (hgid ▸ h5 g hg) (lt_irrefl _)
  · simp only [List.map_append, List.map_cons, List.map_nil]
    rw [List.nodup_append]
    refine ⟨h3, List.nodup_singleton _, ?_⟩
    intro a ha hb
    obtain rfl : a = n := by simpa using hb
    obtain ⟨g, hg, hgname⟩ := List.mem_map.1 ha
    exact hfresh g hg hgname
  · intro g hg
    rcases List.mem_append.1 hg with hg | hg
    · exact (h5 g hg).trans (Nat.lt_succ_self _)
    · obtain rfl : g = ⟨db.nextTagId, n⟩ := by simpa using hg
      exact Nat.lt_succ_self _

theorem cons_resolution_iffs {db' : DB} {ids' : List Nat} {names' : List String}
    {g : Tag} {n : String}
    (hWF : WF db')
    (hIds : ∀ i, i ∈ ids' ↔ ∃ g', g' ∈ db'.tags ∧ g'.id = i ∧ g'.name ∈ names')
    (hNames : ∀ m, m ∈ names' ↔ ∃ g', g' ∈ db'.tags ∧ g'.name = m ∧ g'.id ∈ ids')
    (hgmem : g ∈ db'.tags) (hgname : g.name = n) :
    (∀ i, i ∈ g.id :: ids' ↔ ∃ g', g' ∈ db'.tags ∧ g'.id = i ∧ g'.name ∈ n :: names')
    ∧ (∀ m, m ∈ n :: names' ↔ ∃ g', g' ∈ db'.tags ∧ g'.name = m ∧ g'.id ∈ g.id :: ids') := by
  obtain ⟨w1, w2, w3, w4, w5⟩ := hWF
  constructor
  · intro i
    constructor
    · intro hi
      rcases List.mem_cons.1 hi with rfl | hi'
      · exact ⟨g, hgmem, rfl, hgname ▸ List.mem_cons_self _ _⟩
      · obtain ⟨g', hg'mem, hg'id, hg'name⟩ := (hIds i).1 hi'
        exact ⟨g', hg'mem, hg'id, List.mem_cons_of_mem _ hg'name⟩
    · rintro ⟨g', hg'mem, rfl, hg'name⟩
      rcases List.mem_cons.1 hg'name with heq | hname'
      · have hgg : g' = g :=
          List.inj_on_of_nodup_map w3 hg'mem hgmem (by rw [heq, hgname])
        rw [hgg]
        exact List.mem_cons_self _ _
      · exact List.mem_cons_of_mem _ ((hIds g'.id).2 ⟨g', hg'mem, rfl, hname'⟩)
  · intro m
    constructor
    · intro hm
      rcases List.mem_cons.1 hm with rfl | hm'
      · exact ⟨g, hgmem, hgname, List.mem_cons_self _ _⟩
      · obtain ⟨g', hg'mem, hg'name, hg'id⟩ := (hNames m).1 hm'
        exact ⟨g', hg'mem, hg'name, List.mem_cons_of_mem _ hg'id⟩
    · rintro ⟨g', hg'mem, rfl, hg'id⟩
      rcases List.mem_cons.1 hg'id with heq | hid'
      · have hgg : g' = g := List.inj_on_of_nodup_map w2 hg'mem hgmem heq
        rw [hgg, hgname]
        exact List.mem_cons_self _ _
      · exact List.mem_cons_of_mem _ ((hNames g'.name).2 ⟨g', hg'mem, rfl, hid'⟩)

theorem getOrCreateTags_spec (tagNames : List String) (db : DB) (h : WF db) :
    WF (getOrCreateTags db tagNames).1
    ∧ (getOrCreateTags db tagNames).1.tasks = db.tasks
    ∧ (getOrCreateTags db tagNames).1.nextTaskId = db.nextTaskId
    ∧ (∃ ext, (getOrCreateTags db tagNames).1.tags = db.tags ++ ext)
    ∧ (∀ i, i ∈ (getOrCreateTags db tagNames).2 ↔
        ∃ g, g ∈ (getOrCreateTags db tagNames).1.tags ∧ g.id = i ∧ g.name ∈ normNames tagNames)
    ∧ (∀ n, n ∈ normNames tagNames ↔
        ∃ g, g ∈ (getOrCreateTags db tagNames).1.tags ∧ g.name = n
          ∧ g.id ∈ (getOrCreateTags db tagNames).2) := by
  induction tagNames generalizing db with
  | nil =>
    exact ⟨h, rfl, rfl, ⟨[], by simp [getOrCreateTags]⟩,
      fun i => by simp [getOrCreateTags, normNames],
      fun n => by simp [getOrCreateTags, normNames]⟩
  | cons name rest ih =>
    by_cases hb : normalizeTag name = ""
    · have hred : getOrCreateTags db (name :: rest) = getOrCreateTags db rest := by
        simp [getOrCreateTags, hb]
      have hnn : normNames (name :: rest) = normNames rest := by
        simp [normNames, hb]
      rw [hred, hnn]
      exact ih db h
    · have hnn : normNames (name :: rest) = normalizeTag name :: normNames rest := by
        simp [normNames, hb]
      cases hf : db.tags.find? (fun g => g.name == normalizeTag name) with
      | some g =>
        have hred : getOrCreateTags db (name :: rest) =
            ((getOrCreateTags db rest).1, g.id :: (getOrCreateTags db rest).2) := by
          simp [getOrCreateTags, hb, hf]
        obtain ⟨ihWF, ihTasks, ihNext, ⟨ext, ihExt⟩, ihIds, ihNames⟩ := ih db h
        have hgmem : g ∈ (getOrCreateTags db rest).1.tags := by
          rw [ihExt]
          exact List.mem_append_left _ (List.mem_of_find?_eq_some hf)
        have hgname : g.name = normalizeTag name := by
          simpa [beq_iff_eq] using List.find?_some hf
        obtain ⟨hi, hm⟩ := cons_resolution_iffs ihWF ihIds ihNames hgmem hgname
        rw [hred, hnn]
        exact ⟨ihWF, ihTasks, ihNext, ⟨ext, ihExt⟩, hi, hm⟩
      | none =>
        have hfresh : ∀ x ∈ db.tags, x.name ≠ normalizeTag name := by
          intro x hx
          have := List.find?_eq_none.1 hf x hx
          simpa [beq_iff_eq] using this
        have h1 : WF { db with
            tags := db.tags ++ [⟨db.nextTagId, normalizeTag name⟩],
            nextTagId := db.nextTagId + 1 } := WF_addTag h hfresh
        have hred : getOrCreateTags db (name :: rest) =
            ((getOrCreateTags { db with
                tags := db.tags ++ [⟨db.nextTagId, normalizeTag name⟩],
                nextTagId := db.nextTagId + 1 } rest).1,
             db.nextTagId :: (getOrCreateTags { db with
                tags := db.tags ++ [⟨db.nextTagId, normalizeTag name⟩],
                nextTagId := db.nextTagId + 1 } rest).2) := by
          simp [getOrCreateTags, hb, hf]
        obtain ⟨ihWF, ihTasks, ihNext, ⟨ext, ihExt⟩, ihIds, ihNames⟩ := ih _ h1
        have hgmem : (⟨db.nextTagId, normalizeTag name⟩ : Tag) ∈
            (getOrCreateTags { db with
              tags := db.tags ++ [⟨db.nextTagId, normalizeTag name⟩],
              nextTagId := db.nextTagId + 1 } rest).1.tags := by
          rw [ihExt]
          exact List.mem_append_left _ (List.mem_append_right _ (List.mem_singleton.2 rfl))
        obtain ⟨hi, hm⟩ := cons_resolution_iffs ihWF ihIds ihNames hgmem rfl
        rw [hred, hnn]
        refine ⟨ihWF, ihTasks, ihNext, ⟨[⟨db.nextTagId, normalizeTag name⟩] ++ ext, ?_⟩, hi, hm⟩
        rw [ihExt]
        simp

theorem mem_getTasks_snd {db : DB} {c : Option Bool} {p : Option Int}
    {tg : Option (List String)} {l o : Nat} {t : Task}
    (ht : t ∈ (getTasks db c p tg l o).2) :
    matchesQuery db c p tg t = true ∧ t ∈ db.tasks := by
  have h1 : t ∈ sortByCreatedDesc (getTasksQuery db c p tg) :=
    ((List.take_sublist _ _).trans (List.drop_sublist _ _)).subset ht
  have h2 : t ∈ getTasksQuery db c p tg :=
    (sortByCreatedDesc_perm _).mem_iff.1 h1
  rw [getTasksQuery_eq] at h2
  exact ⟨(List.mem_filter.1 h2).2, (List.mem_filter.1 h2).1⟩

theorem getTasks_snd_nodup {db : DB} {c : Option Bool} {p : Option Int}
    {tg : Option (List String)} {l o : Nat}
    (h : (db.tasks.map Task.id).Nodup) :
    (((getTasks db c p tg l o).2).map Task.id).Nodup := by
  have hq : ((getTasksQuery db c p tg).map Task.id).Nodup := by
    rw [getTasksQuery_eq]
    exact ((List.filter_sublist _).map Task.id).nodup h
  have hs : ((sortByCreatedDesc (getTasksQuery db c p tg)).map Task.id).Nodup :=
    (((sortByCreatedDesc_perm _).map Task.id).nodup_iff).2 hq
  exact (((List.take_sublist _ _).trans (List.drop_sublist _ _)).map Task.id).nodup hs

theorem taskMatchesAnyTag_iff {db : DB} {t : Task} {names : List String} :
    taskMatchesAnyTag db t names = true ↔
      ∃ g, g ∈ db.tags ∧ g.id ∈ t.tagIds ∧ g.name ∈ names := by
  simp [taskMatchesAnyTag, List.any_eq_true]

theorem getTask_some_spec {db : DB} {tid : Nat} {t : Task}
    (hg : getTask db tid = some t) :
    t ∈ db.tasks ∧ t.id = tid ∧ t.deleted = false := by
  have hmem := List.mem_of_find?_eq_some hg
  have hp := List.find?_some hg
  simp only [Bool.and_eq_true, beq_iff_eq] at hp
  exact ⟨hmem, hp.1, hp.2⟩

theorem getTask_none_of_deleted {db : DB} (h : WF db) {t : Task}
    (ht : t ∈ db.tasks) (hd : t.deleted = true) : getTask db t.id = none := by
  refine List.find?_eq_none.2 (fun x hx => ?_)
  simp only [Bool.and_eq_true, beq_iff_eq, not_and]
  intro hid
  have hxt : x = t := List.inj_on_of_nodup_map h.1 hx ht hid
  rw [hxt, hd]
  simp

theorem getTask_self {db : DB} (h : WF db) {t : Task}
    (ht : t ∈ db.tasks) (hd : t.deleted = false) : getTask db t.id = some t := by
  refine find?_eq_some_of_mem_unique ht (by simp [hd]) (fun x hx hpx => ?_)
  simp only [Bool.and_eq_true, beq_iff_eq] at hpx
  exact List.inj_on_of_nodup_map h.1 hx ht hpx.1

theorem getOrCreateTags_frame (tagNames : List String) (db : DB) :
    (getOrCreateTags db tagNames).1.tasks = db.tasks
    ∧ (getOrCreateTags db tagNames).1.nextTaskId = db.nextTaskId := by
  induction tagNames generalizing db with
  | nil => exact ⟨rfl, rfl⟩
  | cons name rest ih =>
    by_cases hb : normalizeTag name = ""
    · simpa [getOrCreateTags, hb] using ih db
    · cases hf : db.tags.find? (fun g => g.name == normalizeTag name) with
      | some g => simpa [getOrCreateTags, hb, hf] using ih db
      | none => simpa [getOrCreateTags, hb, hf] using ih _

theorem createTask_appends {db : DB} {now : Nat} {data : TaskCreate} :
    (createTask db now data).1.tasks = db.tasks ++ [(createTask db now data).2]
    ∧ (createTask db now data).1.tags = (match data.tags with
        | some (n :: rest) => getOrCreateTags db (n :: rest)
        | _ => (db, [])).1.tags := by
  cases hd : data.tags with
  | none => simp [createTask, hd]
  | some ls =>
    cases ls with
    | nil => simp [createTask, hd]
    | cons x xs =>
      constructor
      · simp [createTask, hd, (getOrCreateTags_frame (x :: xs) db).1]
      · simp [createTask, hd]

theorem validateTaskCreate_ok_inv {today : Int} {raw : RawTaskCreate} {data : TaskCreate}
    (hv : validateTaskCreate today raw = Except.ok data) :
    ∃ s, raw.title = some s
      ∧ data = { title := pyStrip s, description := raw.description,
                 priority := raw.priority.getD 3, dueDate := raw.dueDate,
                 tags := some (raw.tags.getD []) }
      ∧ titleValueErrors s = [] ∧ priorityErrors raw.priority = []
      ∧ dueDateErrors today raw.dueDate = [] := by
  unfold validateTaskCreate at hv
  split at hv
  next => cases hv
  next s heq =>
    split at hv
    next hempty =>
      injection hv with hdata
      rw [List.isEmpty_eq_true, List.append_eq_nil, List.append_eq_nil] at hempty
      exact ⟨s, heq, hdata.symm, hempty.1.1, hempty.1.2, hempty.2⟩
    next => cases hv

theorem validateTaskCreate_error_inv {today : Int} {raw : RawTaskCreate}
    {e : List (String × String)}
    (hv : validateTaskCreate today raw = Except.error e) :
    (raw.title = none ∧
      e = ("title", "Field required")
        :: (priorityErrors raw.priority ++ dueDateErrors today raw.dueDate))
    ∨ (∃ s, raw.title = some s
        ∧ e = titleValueErrors s ++ priorityErrors raw.priority
            ++ dueDateErrors today raw.dueDate
        ∧ e ≠ []) := by
  unfold validateTaskCreate at hv
  split at hv
  next heq =>
    injection hv with he
    exact Or.inl ⟨heq, he.symm⟩
  next s heq =>
    split at hv
    next => cases hv
    next hempty =>
      injection hv with he
      refine Or.inr ⟨s, heq, he.symm, ?_⟩
      rw [← he]
      simpa [List.isEmpty_eq_true] using hempty

theorem validateTaskUpdate_ok_inv {today : Int} {raw : RawTaskUpdate} {u : TaskUpdate}
    (hv : validateTaskUpdate today raw = Except.ok u) :
    u = { title := raw.title.map pyStrip, description := raw.description,
          priority := raw.priority, dueDate := raw.dueDate,
          completed := raw.completed, tags := raw.tags } := by
  unfold validateTaskUpdate at hv
  split at hv
  · injection hv with h
    exact h.symm
  · cases hv

theorem titleValueErrors_key {s : String} : ∀ x ∈ titleValueErrors s, x.1 = "title" := by
  unfold titleValueErrors
  split_ifs <;> simp

theorem priorityErrors_key {p : Option Int} : ∀ x ∈ priorityErrors p, x.1 = "priority" := by
  cases p with
  | none => simp [priorityErrors]
  | some v =>
    simp only [priorityErrors]
    split_ifs <;> simp

theorem dueDateErrors_key {today : Int} {d : Option Int} :
    ∀ x ∈ dueDateErrors today d, x.1 = "due_date" := by
  cases d with
  | none => simp [dueDateErrors]
  | some v =>
    simp only [dueDateErrors]
    split_ifs <;> simp

theorem titleValueErrors_ne_nil_iff {s : String} :
    titleValueErrors s ≠ [] ↔ (s.length < 1 ∨ 200 < s.length ∨ pyStrip s = "") := by
  unfold titleValueErrors
  split_ifs <;> simp_all

theorem priorityErrors_ne_nil_iff {p : Option Int} :
    priorityErrors p ≠ [] ↔ priorityOutOfRange p := by
  cases p with
  | none => simp [priorityErrors, priorityOutOfRange]
  | some v =>
    simp only [priorityErrors, priorityOutOfRange]
    split_ifs <;> simp_all

theorem dueDateErrors_ne_nil_iff {today : Int} {d : Option Int} :
    dueDateErrors today d ≠ [] ↔ dueDatePast today d := by
  cases d with
  | none => simp [dueDateErrors, dueDatePast]
  | some v =>
    simp only [dueDateErrors, dueDatePast]
    split_ifs <;> simp_all

theorem exists_mem_key_iff {l : List (String × String)} {k : String}
    (hk : ∀ x ∈ l, x.1 = k) : (∃ m, (k, m) ∈ l) ↔ l ≠ [] := by
  constructor
  · rintro ⟨m, hm⟩ hnil
    rw [hnil] at hm
    cases hm
  · intro hne
    cases l with
    | nil => exact absurd rfl hne
    | cons x xs =>
      refine ⟨x.2, ?_⟩
      have hx1 : x.1 = k := hk x (List.mem_cons_self x xs)
      rw [← hx1]
      exact List.mem_cons_self _ _

theorem not_exists_mem_key {l : List (String × String)} {k k' : String}
    (hk : ∀ x ∈ l, x.1 = k') (hne : k ≠ k') : ¬∃ m, (k, m) ∈ l := by
  rintro ⟨m, hm⟩
  exact hne (hk (k, m) hm)

/-! ## Claim theorems -/

/-- C1, code-bug evidence: `get_or_create_tags` does not de-duplicate.
On the input `["work", "Work"]` — two spellings of one normalized name —
it returns the same tag row twice (the second iteration finds, after the
flush, the row created by the first), and the task created from that
payload carries the duplicated `(task_id, tag_id)` join pair in its
association list, contradicting the claim that the attached tags are
de-duplicated by name. -/
theorem c1_tags_not_deduplicated :
    (getOrCreateTags DB.empty ["work", "Work"]).2 = [1, 1]
    ∧ ¬((getOrCreateTags DB.empty ["work", "Work"]).2.Nodup)
    ∧ (getOrCreateTags DB.empty ["work", "Work"]).1.tags = [⟨1, "work"⟩]
    ∧ (createTask DB.empty 0 { title := "T", tags := some ["work", "Work"] }).2.tagIds
        = [1, 1] := by
  decide

/-- C2: a soft-deleted task is excluded from every read path — it never
appears in `GET /tasks` results, and `GET`, `PATCH` and `DELETE` on its
id all answer 404 Not Found without touching the store; deletion of a
live task only sets the `deleted` flag of its row (all ids are
preserved and the full row survives with `deleted := true`). -/
theorem c2_soft_delete_unreachable (db : DB) (h : WF db) (t : Task)
    (ht : t ∈ db.tasks) (hd : t.deleted = true) :
    (∀ c p tg l o, t ∉ (getTasks db c p tg l o).2)
    ∧ (∀ c p tgs l o body, listTasksRoute db c p tgs l o = Response.success 200 body →
        t ∉ body.tasks)
    ∧ getTaskRoute db t.id = notFoundResponse Task "Task"
    ∧ (∀ u, updateTaskRoute db t.id u = (db, notFoundResponse Task "Task"))
    ∧ deleteTaskRoute db t.id = (db, notFoundResponse Unit "Task")
    ∧ (∀ s, s ∈ db.tasks → s.deleted = false →
        (deleteTaskRoute db s.id).1.tasks.map Task.id = db.tasks.map Task.id
        ∧ ({ s with deleted := true } : Task) ∈ (deleteTaskRoute db s.id).1.tasks) := by
  have hnone : getTask db t.id = none := getTask_none_of_deleted h ht hd
  have hnotin : ∀ c p tg l o, t ∉ (getTasks db c p tg l o).2 := by
    intro c p tg l o hmem
    have hmq := (mem_getTasks_snd hmem).1
    simp [matchesQuery, hd] at hmq
  refine ⟨hnotin, ?_, ?_, ?_, ?_, ?_⟩
  · intro c p tgs l o body hbody
    simp only [listTasksRoute] at hbody
    injection hbody with hst hbd
    rw [← hbd]
    exact hnotin c p (parseTagsParam tgs) l o
  · simp [getTaskRoute, hnone]
  · intro u
    simp [updateTaskRoute, hnone]
  · simp [deleteTaskRoute, hnone]
  · intro s hs hsd
    have hsome : getTask db s.id = some s := getTask_self h hs hsd
    constructor
    · simp only [deleteTaskRoute, hsome, deleteTask]
      rw [List.map_map]
      refine List.map_congr_left (fun x hx => ?_)
      simp only [Function.comp_apply]
      split <;> rfl
    · simp only [deleteTaskRoute, hsome, deleteTask]
      have hfs : ({ s with deleted := true } : Task)
          = (fun x => if x.id == s.id then { x with deleted := true } else x) s := by
        simp
      rw [hfs]
      exact List.mem_map_of_mem _ hs

theorem c2_soft_delete_unreachable_witness :
    getTaskRoute (⟨[⟨1, "A", none, 3, none, false, true, 0, []⟩], [], 2, 1⟩ : DB) 1
      = notFoundResponse Task "Task" := by
  have h := c2_soft_delete_unreachable
    (⟨[⟨1, "A", none, 3, none, false, true, 0, []⟩], [], 2, 1⟩ : DB) (by decide)
    (⟨1, "A", none, 3, none, false, true, 0, []⟩ : Task) (by decide) rfl
  exact h.2.2.1

/-- C3: the `total` returned by `GET /tasks` equals the number of
non-deleted tasks matching all active filters (the declarative predicate
`matchesQuery`), and it is computed after filtering but before
pagination: no choice of `limit` or `offset` changes it. -/
theorem c3_total_independent_of_pagination (db : DB) (c : Option Bool) (p : Option Int)
    (tg : Option (List String)) (l o : Nat) :
    (getTasks db c p tg l o).1 = (db.tasks.filter (matchesQuery db c p tg)).length
    ∧ (∀ l' o', (getTasks db c p tg l' o').1 = (getTasks db c p tg l o).1) := by
  constructor
  · show (getTasksQuery db c p tg).length = _
    rw [getTasksQuery_eq]
  · intro l' o'
    rfl

/-- C4: with a multi-tag filter (`ns` are the normalized requested
names), `GET /tasks` returns each task at most once (the returned ids
are distinct), every returned task is a non-deleted task carrying at
least one requested tag, the page is exactly that any-match union
whenever pagination does not cut it, and requested names carried by no
task yield a zero total rather than an error. -/
theorem c4_multi_tag_any_match (db : DB) (h : WF db) (ts ns : List String)
    (hns : ns = (ts.filter (fun s => !(pyStrip s == ""))).map (fun s => pyLower (pyStrip s)))
    (hne : ns ≠ []) (l o : Nat) :
    ((getTasks db none none (some ts) l o).2.map Task.id).Nodup
    ∧ (∀ t, t ∈ (getTasks db none none (some ts) l o).2 →
        t ∈ db.tasks ∧ t.deleted = false
          ∧ ∃ g, g ∈ db.tags ∧ g.id ∈ t.tagIds ∧ g.name ∈ ns)
    ∧ (o = 0 → (getTasks db none none (some ts) l o).1 ≤ l →
        ∀ t, t ∈ (getTasks db none none (some ts) l o).2 ↔
          (t ∈ db.tasks ∧ t.deleted = false
            ∧ ∃ g, g ∈ db.tags ∧ g.id ∈ t.tagIds ∧ g.name ∈ ns))
    ∧ ((∀ t ∈ db.tasks, ¬∃ g, g ∈ db.tags ∧ g.id ∈ t.tagIds ∧ g.name ∈ ns) →
        (getTasks db none none (some ts) l o).1 = 0) := by
  have hemp : ns.isEmpty = false := by
    cases ns with
    | nil => exact absurd rfl hne
    | cons a as => rfl
  have hmq : ∀ t : Task, (matchesQuery db none none (some ts) t = true) ↔
      (t.deleted = false ∧ ∃ g, g ∈ db.tags ∧ g.id ∈ t.tagIds ∧ g.name ∈ ns) := by
    intro t
    simp only [matchesQuery]
    rw [← hns]
    simp [hemp, taskMatchesAnyTag_iff]
  refine ⟨getTasks_snd_nodup h.1, ?_, ?_, ?_⟩
  · intro t hmem
    obtain ⟨hmq', hmemdb⟩ := mem_getTasks_snd hmem
    obtain ⟨hdel, hex⟩ := (hmq t).1 hmq'
    exact ⟨hmemdb, hdel, hex⟩
  · intro ho hlim t
    subst ho
    have hlen : (sortByCreatedDesc (getTasksQuery db none none (some ts))).length ≤ l := by
      rw [(sortByCreatedDesc_perm _).length_eq]
      exact hlim
    have hpage : (getTasks db none none (some ts) l 0).2
        = sortByCreatedDesc (getTasksQuery db none none (some ts)) := by
      show ((sortByCreatedDesc (getTasksQuery db none none (some ts))).drop 0).take l = _
      rw [List.drop_zero, List.take_of_length_le hlen]
    rw [hpage, (sortByCreatedDesc_perm _).mem_iff, getTasksQuery_eq, List.mem_filter]
    constructor
    · rintro ⟨hmemdb, hmq'⟩
      obtain ⟨hdel, hex⟩ := (hmq t).1 hmq'
      exact ⟨hmemdb, hdel, hex⟩
    · rintro ⟨hmemdb, hdel, hex⟩
      exact ⟨hmemdb, (hmq t).2 ⟨hdel, hex⟩⟩
  · intro h0
    show (getTasksQuery db none none (some ts)).length = 0
    rw [getTasksQuery_eq, List.length_eq_zero]
    refine List.filter_eq_nil_iff.2 (fun t htmem hmq' => ?_)
    exact h0 t htmem ((hmq t).1 hmq').2

theorem c4_multi_tag_any_match_witness :
    (((getTasks (⟨[⟨1, "T", none, 3, none, false, false, 0, [1]⟩], [⟨1, "work"⟩], 2, 2⟩ : DB)
        none none (some ["Work"]) 20 0).2.map Task.id).Nodup) :=
  (c4_multi_tag_any_match
    (⟨[⟨1, "T", none, 3, none, false, false, 0, [1]⟩], [⟨1, "work"⟩], 2, 2⟩ : DB)
    (by decide) ["Work"] ["work"] (by decide) (by decide) 20 0).1

/-- C5: fields absent from a PATCH body keep their stored values — a
PATCH with an empty body returns the task unchanged and leaves the
store unchanged, and for any partial body each absent field of the
result equals the stored one (id, creation time and the deleted flag
are never touched by PATCH at all). -/
theorem c5_absent_fields_untouched (db : DB) (h : WF db) (tid : Nat) (t : Task)
    (hg : getTask db tid = some t) :
    updateTaskRoute db tid {} = (db, Response.success 200 t)
    ∧ (∀ u db' t', updateTaskRoute db tid u = (db', Response.success 200 t') →
        (u.title = none → t'.title = t.title)
        ∧ (u.description = none → t'.description = t.description)
        ∧ (u.priority = none → t'.priority = t.priority)
        ∧ (u.dueDate = none → t'.dueDate = t.dueDate)
        ∧ (u.completed = none → t'.completed = t.completed)
        ∧ (u.tags = none → t'.tagIds = t.tagIds)
        ∧ t'.deleted = t.deleted ∧ t'.id = t.id ∧ t'.createdAt = t.createdAt) := by
  obtain ⟨hmem, hid, hdel⟩ := getTask_some_spec hg
  have hmap : db.tasks.map (fun x => if x.id == t.id then t else x) = db.tasks := by
    refine (List.map_congr_left (fun x hx => ?_)).trans (List.map_id _)
    by_cases hxi : (x.id == t.id) = true
    · have hxt : x = t := List.inj_on_of_nodup_map h.1 hx hmem (beq_iff_eq.1 hxi)
      simp [hxi, hxt]
    · simp [hxi]
  have hempty : updateTask db t {} = (db, t) := by
    show ({ db with tasks := db.tasks.map (fun x => if x.id == t.id then t else x) }, t)
      = (db, t)
    rw [hmap]
  constructor
  · simp [updateTaskRoute, hg, hempty]
  · intro u db' t' hru
    simp only [updateTaskRoute, hg] at hru
    have ht' : (updateTask db t u).2 = t' := by
      have h2 := congrArg Prod.snd hru
      simp only at h2
      injection h2 with hst hbody
    subst ht'
    refine ⟨fun hnone => ?_, fun hnone => ?_, fun hnone => ?_, fun hnone => ?_,
      fun hnone => ?_, fun hnone => ?_, ?_, ?_, ?_⟩
    · simp [updateTask, hnone]
    · simp [updateTask, hnone]
    · simp [updateTask, hnone]
    · simp [updateTask, hnone]
    · simp [updateTask, hnone]
    · simp [updateTask, hnone]
    · simp [updateTask]
    · simp [updateTask]
    · simp [updateTask]

theorem c5_absent_fields_untouched_witness :
    updateTaskRoute (⟨[⟨1, "A", none, 3, none, false, false, 0, []⟩], [], 2, 1⟩ : DB) 1 {}
      = ((⟨[⟨1, "A", none, 3, none, false, false, 0, []⟩], [], 2, 1⟩ : DB),
         Response.success 200 (⟨1, "A", none, 3, none, false, false, 0, []⟩ : Task)) :=
  (c5_absent_fields_untouched
    (⟨[⟨1, "A", none, 3, none, false, false, 0, []⟩], [], 2, 1⟩ : DB) (by decide) 1
    (⟨1, "A", none, 3, none, false, false, 0, []⟩ : Task) (by decide)).1

/-- C6: a PATCH whose body contains `tags` — with any value, including
an empty list or `null` — fully replaces the task's tag associations by
the resolution of the supplied list: the resulting association ids are
exactly the ids of the tag rows named by the normalized supplied names
(so no pre-existing association survives unless its name appears in the
new list), and an empty or `null` list leaves the task with no tags. -/
theorem c6_tags_fully_replaced (db : DB) (h : WF db) (tid : Nat) (t : Task)
    (hg : getTask db tid = some t) (u : TaskUpdate) (v : Option (List String))
    (hu : u.tags = some v) :
    updateTaskRoute db tid u
      = ((updateTask db t u).1, Response.success 200 (updateTask db t u).2)
    ∧ (∀ i, i ∈ (updateTask db t u).2.tagIds ↔
        ∃ g, g ∈ (updateTask db t u).1.tags ∧ g.id = i ∧ g.name ∈ normNames (v.getD []))
    ∧ (∀ n, n ∈ normNames (v.getD []) ↔
        ∃ g, g ∈ (updateTask db t u).1.tags ∧ g.name = n
          ∧ g.id ∈ (updateTask db t u).2.tagIds)
    ∧ (v.getD [] = [] → (updateTask db t u).2.tagIds = []) := by
  obtain ⟨sWF, sTasks, sNext, sExt, sIds, sNames⟩ := getOrCreateTags_spec (v.getD []) db h
  have e2 : (updateTask db t u).2.tagIds = (getOrCreateTags db (v.getD [])).2 := by
    simp [updateTask, hu]
  have e1 : (updateTask db t u).1.tags = (getOrCreateTags db (v.getD [])).1.tags := by
    simp [updateTask, hu]
  refine ⟨by simp [updateTaskRoute, hg], ?_, ?_, ?_⟩
  · intro i
    rw [e2, e1]
    exact sIds i
  · intro n
    rw [e1, e2]
    exact sNames n
  · intro hv
    rw [e2, hv]
    rfl

theorem c6_tags_fully_replaced_witness :
    (updateTask (⟨[⟨1, "A", none, 3, none, false, false, 0, [1]⟩], [⟨1, "old"⟩], 2, 2⟩ : DB)
        (⟨1, "A", none, 3, none, false, false, 0, [1]⟩ : Task)
        { tags := some (some []) }).2.tagIds = [] :=
  (c6_tags_fully_replaced
    (⟨[⟨1, "A", none, 3, none, false, false, 0, [1]⟩], [⟨1, "old"⟩], 2, 2⟩ : DB)
    (by decide) 1 (⟨1, "A", none, 3, none, false, false, 0, [1]⟩ : Task) (by decide)
    { tags := some (some []) } (some []) rfl).2.2.2 rfl

/-- C7: resolving the same normalized tag name twice — here, creating
two tasks whose payloads carry case/whitespace variants of one name —
yields exactly one tag row: the second creation adds no tag row, both
tasks reference the same single tag id, and the final store holds
exactly one tag row with that name. -/
theorem c7_shared_tag_row (db : DB) (h : WF db) (a b : String)
    (hab : normalizeTag a = normalizeTag b) (hne : normalizeTag a ≠ "")
    (d1 d2 : TaskCreate) (h1 : d1.tags = some [a]) (h2 : d2.tags = some [b])
    (now1 now2 : Nat) :
    (createTask (createTask db now1 d1).1 now2 d2).1.tags = (createTask db now1 d1).1.tags
    ∧ (createTask (createTask db now1 d1).1 now2 d2).2.tagIds
        = (createTask db now1 d1).2.tagIds
    ∧ (∃ g : Tag, g.name = normalizeTag a
        ∧ (createTask db now1 d1).2.tagIds = [g.id]
        ∧ (createTask (createTask db now1 d1).1 now2 d2).2.tagIds = [g.id]
        ∧ ((createTask (createTask db now1 d1).1 now2 d2).1.tags.filter
            (fun x => x.name == normalizeTag a)).length = 1) := by
  have hne2 : normalizeTag b ≠ "" := hab ▸ hne
  cases hf : db.tags.find? (fun g => g.name == normalizeTag a) with
  | some g =>
    have hgoc1 : getOrCreateTags db [a] = (db, [g.id]) := by
      simp [getOrCreateTags, hne, hf]
    have e1tags : (createTask db now1 d1).1.tags = db.tags := by
      simp [createTask, h1, hgoc1]
    have e1ids : (createTask db now1 d1).2.tagIds = [g.id] := by
      simp [createTask, h1, hgoc1]
    have hf2 : (createTask db now1 d1).1.tags.find? (fun x => x.name == normalizeTag b)
        = some g := by
      rw [e1tags, ← hab]
      exact hf
    have hgoc2 : getOrCreateTags (createTask db now1 d1).1 [b]
        = ((createTask db now1 d1).1, [g.id]) := by
      simp [getOrCreateTags, hne2, hf2]
    have e2tags : (createTask (createTask db now1 d1).1 now2 d2).1.tags
        = (createTask db now1 d1).1.tags := by
      generalize hD : (createTask db now1 d1).1 = D at hgoc2 ⊢
      simp [createTask, h2, hgoc2]
    have e2ids : (createTask (createTask db now1 d1).1 now2 d2).2.tagIds = [g.id] := by
      generalize hD : (createTask db now1 d1).1 = D at hgoc2 ⊢
      simp [createTask, h2, hgoc2]
    have hgname : g.name = normalizeTag a := by
      simpa [beq_iff_eq] using List.find?_some hf
    refine ⟨e2tags, by rw [e2ids, e1ids], g, hgname, e1ids, e2ids, ?_⟩
    rw [e2tags, e1tags, ← hgname,
      filter_name_eq_singleton h.2.2.1 (List.mem_of_find?_eq_some hf)]
    rfl
  | none =>
    have hgoc1 : getOrCreateTags db [a] =
        ({ db with
           tags := db.tags ++ [⟨db.nextTagId, normalizeTag a⟩],
           nextTagId := db.nextTagId + 1 }, [db.nextTagId]) := by
      simp [getOrCreateTags, hne, hf]
    have e1tags : (createTask db now1 d1).1.tags
        = db.tags ++ [⟨db.nextTagId, normalizeTag a⟩] := by
      simp [createTask, h1, hgoc1]
    have e1ids : (createTask db now1 d1).2.tagIds = [db.nextTagId] := by
      simp [createTask, h1, hgoc1]
    have hf2 : (createTask db now1 d1).1.tags.find? (fun x => x.name == normalizeTag b)
        = some ⟨db.nextTagId, normalizeTag a⟩ := by
      rw [e1tags, ← hab, List.find?_append, hf]
      simp
    have hgoc2 : getOrCreateTags (createTask db now1 d1).1 [b]
        = ((createTask db now1 d1).1, [db.nextTagId]) := by
      simp [getOrCreateTags, hne2, hf2]
    have e2tags : (createTask (createTask db now1 d1).1 now2 d2).1.tags
        = (createTask db now1 d1).1.tags := by
      generalize hD : (createTask db now1 d1).1 = D at hgoc2 ⊢
      simp [createTask, h2, hgoc2]
    have e2ids : (createTask (createTask db now1 d1).1 now2 d2).2.tagIds
        = [db.nextTagId] := by
      generalize hD : (createTask db now1 d1).1 = D at hgoc2 ⊢
      simp [createTask, h2, hgoc2]
    refine ⟨e2tags, by rw [e2ids, e1ids], ⟨db.nextTagId, normalizeTag a⟩, rfl, e1ids, e2ids, ?_⟩
    rw [e2tags, e1tags, List.filter_append]
    have hleft : db.tags.filter (fun x => x.name == normalizeTag a) = [] := by
      refine List.filter_eq_nil_iff.2 (fun x hx => ?_)
      simpa using List.find?_eq_none.1 hf x hx
    rw [hleft]
    simp

theorem c7_shared_tag_row_witness :
    (createTask (createTask DB.empty 0
        { title := "T1", tags := some ["shared"] }).1 1
        { title := "T2", tags := some [" SHARED "] }).2.tagIds
      = (createTask DB.empty 0 { title := "T1", tags := some ["shared"] }).2.tagIds :=
  (c7_shared_tag_row DB.empty (by decide) "shared" " SHARED " (by decide) (by decide)
    { title := "T1", tags := some ["shared"] } { title := "T2", tags := some [" SHARED "] }
    rfl rfl 0 1).2.1

/-- C8: the priority persisted and returned for a created task is the
validated payload's priority — 3 when the request body omitted the
field, else exactly the supplied value. -/
theorem c8_priority_default (today : Int) (raw : RawTaskCreate) (data : TaskCreate)
    (hv : validateTaskCreate today raw = Except.ok data) (db : DB) (now : Nat) :
    (createTask db now data).2.priority = data.priority
    ∧ (raw.priority = none → data.priority = 3)
    ∧ (∀ pv, raw.priority = some pv → data.priority = pv) := by
  obtain ⟨s, hts, hdata, h1, h2, h3⟩ := validateTaskCreate_ok_inv hv
  refine ⟨rfl, ?_, ?_⟩
  · intro hnone
    rw [hdata]
    simp [hnone]
  · intro pv hpv
    rw [hdata]
    simp [hpv]

theorem exists_key_append_left {l1 l2 : List (String × String)} {k : String}
    (h2 : ∀ x ∈ l2, x.1 ≠ k) : (∃ m, (k, m) ∈ l1 ++ l2) ↔ (∃ m, (k, m) ∈ l1) := by
  constructor
  · rintro ⟨m, hm⟩
    rcases List.mem_append.1 hm with hmm | hmm
    · exact ⟨m, hmm⟩
    · exact absurd rfl (h2 _ hmm)
  · rintro ⟨m, hm⟩
    exact ⟨m, List.mem_append_left _ hm⟩

theorem exists_key_append_right {l1 l2 : List (String × String)} {k : String}
    (h1 : ∀ x ∈ l1, x.1 ≠ k) : (∃ m, (k, m) ∈ l1 ++ l2) ↔ (∃ m, (k, m) ∈ l2) := by
  constructor
  · rintro ⟨m, hm⟩
    rcases List.mem_append.1 hm with hmm | hmm
    · exact absurd rfl (h1 _ hmm)
    · exact ⟨m, hmm⟩
  · rintro ⟨m, hm⟩
    exact ⟨m, List.mem_append_right _ hm⟩

/-- C9: `POST /tasks` fails — with a 422 response whose body is
`{"error": "Validation Failed", "details": per-field map}` and with no
task row created — exactly when the input violates a declared
constraint: title absent/blank/whitespace-only/over 200 characters,
priority outside [1, 5], or due date strictly before today; the details
map holds an entry for precisely the violated fields, and a valid input
creates exactly one new row. -/
theorem c9_validation_422_iff (today : Int) (raw : RawTaskCreate) (db : DB) (now : Nat) :
    ((∃ e, validateTaskCreate today raw = Except.error e) ↔
      (titleMissingOrInvalid raw.title ∨ priorityOutOfRange raw.priority
        ∨ dueDatePast today raw.dueDate))
    ∧ (∀ e, validateTaskCreate today raw = Except.error e →
        createTaskRoute db today now raw
          = (db, Response.failure 422 { error := "Validation Failed", details := e })
        ∧ (titleMissingOrInvalid raw.title ↔ ∃ m, ("title", m) ∈ e)
        ∧ (priorityOutOfRange raw.priority ↔ ∃ m, ("priority", m) ∈ e)
        ∧ (dueDatePast today raw.dueDate ↔ ∃ m, ("due_date", m) ∈ e))
    ∧ (∀ data, validateTaskCreate today raw = Except.ok data →
        createTaskRoute db today now raw
          = ((createTask db now data).1, Response.success 201 (createTask db now data).2)
        ∧ (createTask db now data).1.tasks = db.tasks ++ [(createTask db now data).2]) := by
  refine ⟨⟨?_, ?_⟩, ?_, ?_⟩
  · rintro ⟨e, he⟩
    rcases validateTaskCreate_error_inv he with ⟨hn, _⟩ | ⟨s, hs, hee, hne⟩
    · refine Or.inl ?_
      rw [hn]
      trivial
    · by_cases h1 : titleValueErrors s = []
      · by_cases h2 : priorityErrors raw.priority = []
        · by_cases h3 : dueDateErrors today raw.dueDate = []
          · exact absurd (by rw [hee, h1, h2, h3]; rfl) hne
          · exact Or.inr (Or.inr (dueDateErrors_ne_nil_iff.1 h3))
        · exact Or.inr (Or.inl (priorityErrors_ne_nil_iff.1 h2))
      · refine Or.inl ?_
        rw [hs]
        exact titleValueErrors_ne_nil_iff.1 h1
  · intro hviol
    cases hva : validateTaskCreate today raw with
    | error e => exact ⟨e, rfl⟩
    | ok data =>
      exfalso
      obtain ⟨s, hts, _, ht0, hp0, hd0⟩ := validateTaskCreate_ok_inv hva
      rcases hviol with hv1 | hv2 | hv3
      · rw [hts] at hv1
        exact (titleValueErrors_ne_nil_iff.2 hv1) ht0
      · exact (priorityErrors_ne_nil_iff.2 hv2) hp0
      · exact (dueDateErrors_ne_nil_iff.2 hv3) hd0
  · intro e he
    have hroute : createTaskRoute db today now raw
        = (db, Response.failure 422 { error := "Validation Failed", details := e }) := by
      simp [createTaskRoute, he]
    rcases validateTaskCreate_error_inv he with ⟨hn, hee⟩ | ⟨s, hs, hee, hne⟩
    · subst hee
      refine ⟨hroute, ?_, ?_, ?_⟩
      · rw [hn]
        constructor
        · intro _
          exact ⟨"Field required", List.mem_cons_self _ _⟩
        · intro _
          trivial
      · have hstep : (∃ m, ("priority", m) ∈ ("title", "Field required")
            :: (priorityErrors raw.priority ++ dueDateErrors today raw.dueDate))
            ↔ ∃ m, ("priority", m) ∈ priorityErrors raw.priority := by
          constructor
          · rintro ⟨m, hm⟩
            rcases List.mem_cons.1 hm with heq | hm2
            · have hpt : "priority" = "title" := congrArg Prod.fst heq
              exact absurd hpt (by decide)
            · rcases List.mem_append.1 hm2 with hm3 | hm4
              · exact ⟨m, hm3⟩
              · have hpd : "priority" = "due_date" := dueDateErrors_key _ hm4
                exact absurd hpd (by decide)
          · rintro ⟨m, hm⟩
            exact ⟨m, List.mem_cons_of_mem _ (List.mem_append_left _ hm)⟩
        rw [hstep, exists_mem_key_iff priorityErrors_key, priorityErrors_ne_nil_iff]
      · have hstep : (∃ m, ("due_date", m) ∈ ("title", "Field required")
            :: (priorityErrors raw.priority ++ dueDateErrors today raw.dueDate))
            ↔ ∃ m, ("due_date", m) ∈ dueDateErrors today raw.dueDate := by
          constructor
          · rintro ⟨m, hm⟩
            rcases List.mem_cons.1 hm with heq | hm2
            · have hdt : "due_date" = "title" := congrArg Prod.fst heq
              exact absurd hdt (by decide)
            · rcases List.mem_append.1 hm2 with hm3 | hm4
              · have hdp : "due_date" = "priority" := priorityErrors_key _ hm3
                exact absurd hdp (by decide)
              · exact ⟨m, hm4⟩
          · rintro ⟨m, hm⟩
            exact ⟨m, List.mem_cons_of_mem _ (List.mem_append_right _ hm)⟩
        rw [hstep, exists_mem_key_iff dueDateErrors_key, dueDateErrors_ne_nil_iff]
    · subst hee
      refine ⟨hroute, ?_, ?_, ?_⟩
      · have hpd : ∀ x ∈ priorityErrors raw.priority ++ dueDateErrors today raw.dueDate,
            x.1 ≠ "title" := by
          intro x hx
          rcases List.mem_append.1 hx with hx | hx
          · rw [priorityErrors_key x hx]
            decide
          · rw [dueDateErrors_key x hx]
            decide
        rw [hs, List.append_assoc, exists_key_append_left hpd,
          exists_mem_key_iff titleValueErrors_key, titleValueErrors_ne_nil_iff]
        exact Iff.rfl
      · have hd' : ∀ x ∈ dueDateErrors today raw.dueDate, x.1 ≠ "priority" := by
          intro x hx
          rw [dueDateErrors_key x hx]
          decide
        have ht' : ∀ x ∈ titleValueErrors s, x.1 ≠ "priority" := by
          intro x hx
          rw [titleValueErrors_key x hx]
          decide
        rw [exists_key_append_left hd', exists_key_append_right ht',
          exists_mem_key_iff priorityErrors_key, priorityErrors_ne_nil_iff]
      · have htp : ∀ x ∈ titleValueErrors s ++ priorityErrors raw.priority,
            x.1 ≠ "due_date" := by
          intro x hx
          rcases List.mem_append.1 hx with hx | hx
          · rw [titleValueErrors_key x hx]
            decide
          · rw [priorityErrors_key x hx]
            decide
        rw [exists_key_append_right htp, exists_mem_key_iff dueDateErrors_key,
          dueDateErrors_ne_nil_iff]
  · intro data hok
    exact ⟨by simp [createTaskRoute, hok], createTask_appends.1⟩

theorem c9_validation_422_iff_witness :
    createTaskRoute DB.empty 0 0 { title := some "Task", priority := some 6 }
      = (DB.empty, Response.failure 422
          { error := "Validation Failed",
            details := [("priority", "Input should be less than or equal to 5")] }) :=
  ((c9_validation_422_iff 0 { title := some "Task", priority := some 6 } DB.empty 0).2.1
    [("priority", "Input should be less than or equal to 5")] rfl).1

/-- C10: every accepted title — on task creation and on update alike —
is stored and returned as the trimmed form of the submitted string: the
validators return `v.strip()` and the command layer persists that value
verbatim, so no persisted title carries surrounding whitespace. -/
theorem c10_titles_trimmed :
    (∀ today raw data, validateTaskCreate today raw = Except.ok data →
      (∃ s, raw.title = some s ∧ data.title = pyStrip s)
      ∧ ∀ db now, (createTask db now data).2.title = data.title)
    ∧ (∀ today raw u, validateTaskUpdate today raw = Except.ok u →
      ∀ s, raw.title = some s →
        u.title = some (pyStrip s)
        ∧ ∀ db t, (updateTask db t u).2.title = pyStrip s) := by
  constructor
  · intro today raw data hv
    obtain ⟨s, hts, hdata, _, _, _⟩ := validateTaskCreate_ok_inv hv
    refine ⟨⟨s, hts, by rw [hdata]⟩, fun db now => rfl⟩
  · intro today raw u hv s hs
    have hu := validateTaskUpdate_ok_inv hv
    have hut : u.title = some (pyStrip s) := by
      rw [hu]
      simp [hs]
    refine ⟨hut, fun db t => ?_⟩
    simp [updateTask, hut]

theorem c10_titles_trimmed_witness :
    (∃ s, (some "  Task " : Option String) = some s
      ∧ ({ title := "Task", description := none, priority := 3, dueDate := none,
           tags := some [] } : TaskCreate).title = pyStrip s) :=
  ((c10_titles_trimmed).1 0 { title := some "  Task " }
    { title := "Task", description := none, priority := 3, dueDate := none,
      tags := some [] } rfl).1

theorem c8_priority_default_witness :
    (({ title := "Task", description := none, priority := 3, dueDate := none,
        tags := some [] } : TaskCreate)).priority = 3 :=
  (c8_priority_default 0 { title := some "Task" }
    { title := "Task", description := none, priority := 3, dueDate := none,
      tags := some [] } rfl DB.empty 0).2.1 rfl

end MediVue
